import Mathlib

/-!
Verification of the trampolined Scheme interpreter in `src/jscheme.js`
(the variant with `Thunk`/`trampoline`/`evaluateWithTailCall`).

Shallow embedding conventions:

* JavaScript run-time values are modelled by the inductive `Value`:
  `num` (JS number), `bool`, `sym` (JS string, used both for symbols and
  as `Map` keys), `empty` (JS `null`, the end-of-list marker produced by
  the parser), `undef` (JS `undefined`, the result of `define`),
  `cons` (the `Cons` class), `prim` (the seven native procedures seeded
  into the global environment by `repl`), and `closure` (the JS function
  value produced by the `lambda` case, which captures the raw `args`
  chain of the lambda form and the defining environment).

* JS numbers are IEEE float64; they are modelled as exact fractions
  (`JsNum`, with `toRat` giving the rational value).  Every numeric
  computation appearing in the verified claims (small integers, `3.5`,
  `1.5e1`) is exactly representable in float64, where JS arithmetic
  agrees with exact rational arithmetic.  `NaN`, infinities and `-0`
  are outside the model: `parseFloat`'s `Infinity` production is
  treated as a parse failure and division by zero is mapped to the
  error `Err.hostUnmodelled` (JS would produce `Infinity`/`NaN`).

* Environments are mutable objects shared by reference, so they are
  modelled with an explicit heap: a `Store` is the list of all
  `Environment` frames ever created, and an environment reference is an
  index into that list.  `new Environment(parent)` appends a frame, so a
  frame's parent index is always smaller than its own index.

* Partiality (the interpreter need not terminate) is modelled with an
  explicit fuel argument; every recursive call of the evaluator family
  consumes one unit.  Running out of fuel yields the artificial error
  `Err.outOfFuel`, which no JS execution produces.

* Each evaluator function additionally returns a `Nat`: the maximum
  native call-stack depth (number of nested JS stack frames) that the
  source program uses while producing the result.  The `trampoline`
  loop is iterative in the source, so successive loop iterations take
  the *maximum*, not the sum, of their depths.  This ghost component is
  only read by the tail-call claim; the `Except`/`Store` components
  mirror the source exactly.
-/

namespace Scheme

/-- The seven native procedures seeded by `repl`. -/
inductive Prim where
  | add | sub | mul | div | eq | lt | gt
  deriving DecidableEq, Repr

/-- A JS number, modelled as an exact fraction `n / d` with `d > 0` for
every value the interpreter constructs.  The fraction is kept
unnormalized so that all arithmetic is kernel-computable; numeric
equality is `jsNumEq` (cross multiplication), which is what JS `===`
compares, and `toRat` maps into `ℚ` for the semantic lemmas.  All values
arising in the verified claims have denominator 1 or a power of ten. -/
structure JsNum where
  n : Int
  d : Nat
  deriving DecidableEq, Repr

/-- The rational value of a `JsNum`. -/
def toRat (x : JsNum) : ℚ := (x.n : ℚ) / (x.d : ℚ)

/-- JS `+` on two numbers. -/
def jsAdd (a b : JsNum) : JsNum := ⟨a.n * b.d + b.n * a.d, a.d * b.d⟩

/-- JS `-` on two numbers. -/
def jsSub (a b : JsNum) : JsNum := ⟨a.n * b.d - b.n * a.d, a.d * b.d⟩

/-- JS `*` on two numbers. -/
def jsMul (a b : JsNum) : JsNum := ⟨a.n * b.n, a.d * b.d⟩

/-- JS `/` on two numbers with a nonzero divisor
(`(a/b) / (c/d) = a*d / (b*c)`, with the sign moved to the numerator). -/
def jsDiv (a b : JsNum) : JsNum :=
  if b.n < 0 then ⟨-(a.n * b.d), a.d * b.n.natAbs⟩
  else ⟨a.n * b.d, a.d * b.n.natAbs⟩

/-- JS `===` on two numbers: numeric equality of the fractions. -/
def jsNumEq (a b : JsNum) : Bool := a.n * b.d = b.n * a.d

/-- JS `<` on two numbers (denominators are positive by construction). -/
def jsNumLt (a b : JsNum) : Bool := a.n * b.d < b.n * a.d

/-- The number `10 ^ k`. -/
def pow10 (k : Nat) : JsNum := ⟨(10 ^ k : ℕ), 1⟩

/-- The number of a natural. -/
def numOfNat (k : Nat) : JsNum := ⟨(k : Int), 1⟩

/-- JS run-time values of the interpreter (see the module comment). -/
inductive Value where
  /-- a JS number, modelled as an exact fraction -/
  | num (q : JsNum)
  /-- a JS boolean -/
  | bool (b : Bool)
  /-- a JS string; the parser produces these for symbols -/
  | sym (s : String)
  /-- JS `null`: the parser's empty list -/
  | empty
  /-- JS `undefined`: the result of `define` -/
  | undefVal
  /-- a `Cons` cell -/
  | cons (car cdr : Value)
  /-- one of the seven seeded native procedures -/
  | prim (p : Prim)
  /-- the JS function produced by the `lambda` case: it captures the raw
  `args` chain of the lambda form (`(params body ...)`) and the index of
  the defining environment -/
  | closure (args : Value) (env : Nat)
  deriving DecidableEq, Repr

/-- Kinds of JS exceptions thrown by the interpreter, plus two artifacts of
the embedding (`hostUnmodelled` for host behaviour outside the rational
model, `outOfFuel` for fuel exhaustion). -/
inductive Err where
  /-- thrown by `Environment.lookup` -/
  | undefinedVariable (s : String)
  /-- thrown by the application case of `evaluateWithTailCall`; carries the
  unevaluated operator interpolated into the message -/
  | notAFunction (op : Value)
  /-- thrown by `parseExpression` when the token cursor is exhausted -/
  | unexpectedEndOfInput
  /-- thrown by the list loop of `parseExpression` -/
  | unmatchedParen
  /-- thrown by `parseExpression` on a stray closing parenthesis -/
  | unexpectedCloseParen
  /-- thrown by `parse` when tokens remain after one expression -/
  | trailingInput
  /-- JS `TypeError` from reading a property of `null`/`undefined` -/
  | typeError
  /-- host behaviour outside the exact-rational model (NaN, string
  coercion, division by zero) -/
  | hostUnmodelled
  /-- embedding artifact: fuel exhausted -/
  | outOfFuel
  deriving DecidableEq, Repr

deriving instance DecidableEq for Except

/-- One `Environment` object: its `vars` map (an insertion-ordered
association list, matching JS `Map`) and its parent reference. -/
structure Frame where
  vars : List (String × Value)
  parent : Option Nat
  deriving DecidableEq, Repr

/-- The heap of every `Environment` frame created so far; an environment
reference is an index into `frames`. -/
structure Store where
  frames : List Frame
  deriving DecidableEq, Repr

/-- JS `Map.get`. -/
def frameGet (vs : List (String × Value)) (k : String) : Option Value :=
  match vs with
  | [] => none
  | (k', v) :: rest => if k' = k then some v else frameGet rest k

/-- JS `Map.set`: overwrite in place (keeping insertion order) or append. -/
def frameSet (vs : List (String × Value)) (k : String) (v : Value) :
    List (String × Value) :=
  match vs with
  | [] => [(k, v)]
  | (k', v') :: rest =>
    if k' = k then (k, v) :: rest else (k', v') :: frameSet rest k v

/-- Dereference an environment index. -/
def getFrame (st : Store) (i : Nat) : Option Frame :=
  st.frames.get? i

/-- Replace the frame at one index. -/
def modifyFrame : List Frame → Nat → (Frame → Frame) → List Frame
  | [], _, _ => []
  | f :: rest, 0, g => g f :: rest
  | f :: rest, i+1, g => f :: modifyFrame rest i g

/-- Source `Environment.define`: `this.vars.set(symbol, value)` on the frame at
index `i`.  The evaluator only ever calls this with a string key; a
non-string `Map` key would be invisible to `lookup` (which is only ever
called with strings), so such defines are modelled as no-ops at the call
sites. -/
def defineVar (st : Store) (i : Nat) (s : String) (v : Value) : Store :=
  ⟨modifyFrame st.frames i (fun fr => { fr with vars := frameSet fr.vars s v })⟩

/-- Source `Environment.lookup`, walking the parent chain.  The source recurses
through `this.parent`; the fuel argument bounds the chain length.  Every
frame's parent index is smaller than its own index (frames are appended
and parented to already-existing frames), so `lookup` below supplies
`i + 1` fuel, which always suffices on reachable stores.  The second
component is the native recursion depth (number of frames visited). -/
def lookupF : Nat → Store → Nat → String → Option Value × Nat
  | 0, _, _, _ => (none, 0)
  | fuel+1, st, i, s =>
    match getFrame st i with
    | none => (none, 1)
    | some fr =>
      match frameGet fr.vars s with
      | some v => (some v, 1)
      | none =>
        match fr.parent with
        | none => (none, 1)
        | some p =>
          let (r, d) := lookupF fuel st p s
          (r, d + 1)

/-- Source `Environment.lookup` from the frame at index `i`. -/
def lookup (st : Store) (i : Nat) (s : String) : Option Value × Nat :=
  lookupF (i + 1) st i s

/-- Reading `.car` in JS: a `Cons` yields its field; `null`/`undefined`
throw a `TypeError`; any other value yields `undefined` (property access
on a non-object primitive). -/
def jsCar : Value → Except Err Value
  | .cons a _ => .ok a
  | .empty => .error .typeError
  | .undefVal => .error .typeError
  | _ => .ok .undefVal

/-- Reading `.cdr` in JS (same conventions as `jsCar`). -/
def jsCdr : Value → Except Err Value
  | .cons _ d => .ok d
  | .empty => .error .typeError
  | .undefVal => .error .typeError
  | _ => .ok .undefVal

/-- JS truthiness, as used by `condition ? ... : ...` in the `if` thunk:
`false`, `0`, the empty string, `null` and `undefined` are falsy; every
other interpreter value (including every `Cons` and every procedure) is
truthy.  (`NaN` and `-0`, also falsy in JS, do not exist in the rational
model.) -/
def jsTruthy : Value → Bool
  | .bool b => b
  | .num q => decide (q.n ≠ 0)
  | .sym s => decide (s ≠ "")
  | .empty => false
  | .undefVal => false
  | _ => true

/-- Application of one of the seven seeded primitives, e.g.
`(a, b) => a + b`.  Extra arguments beyond the first two are ignored
(JS).  Operands that are not two numbers engage JS coercion
(string concatenation, NaN, ...), which is outside the rational model
and mapped to `hostUnmodelled`, as is division by zero (JS `Infinity`). -/
def applyPrim (p : Prim) (args : List Value) : Except Err Value :=
  match args with
  | .num a :: .num b :: _ =>
    match p with
    | .add => .ok (.num (jsAdd a b))
    | .sub => .ok (.num (jsSub a b))
    | .mul => .ok (.num (jsMul a b))
    | .div => if b.n = 0 then .error .hostUnmodelled else .ok (.num (jsDiv a b))
    | .eq => .ok (.bool (jsNumEq a b))
    | .lt => .ok (.bool (jsNumLt a b))
    | .gt => .ok (.bool (jsNumLt b a))
  | _ => .error .hostUnmodelled

/-! ## Tokenizer -/

/-- Whitespace as produced by the inputs in scope (JS `\s` also matches
further Unicode space characters, none of which occur here). -/
def isWs (c : Char) : Bool :=
  c = ' ' || c = '\t' || c = '\n' || c = '\r'

/-- The two `.replace` calls of `tokenize`: surround every parenthesis
with spaces. -/
def expandParens (cs : List Char) : List Char :=
  cs.flatMap fun c =>
    if c = '(' then [' ', '(', ' ']
    else if c = ')' then [' ', ')', ' ']
    else [c]

/-- JS `String.prototype.trim`. -/
def trimWs (cs : List Char) : List Char :=
  ((cs.dropWhile isWs).reverse.dropWhile isWs).reverse

/-- Split a trimmed character list on maximal whitespace runs
(JS `.split(/\s+/)` on a trimmed string). -/
def wordsAux : List Char → List Char → List String
  | [], acc => if acc.isEmpty then [] else [String.mk acc.reverse]
  | c :: rest, acc =>
    if isWs c then
      if acc.isEmpty then wordsAux rest []
      else String.mk acc.reverse :: wordsAux rest []
    else wordsAux rest (c :: acc)

/-- Source `tokenize`: pad parentheses with spaces, trim, split on whitespace.
JS `"".split(/\s+/)` yields `[""]`, so an all-whitespace input produces
the single empty token. -/
def tokenize (input : String) : List String :=
  let cs := trimWs (expandParens input.data)
  if cs.isEmpty then [""] else wordsAux cs []

/-- The one-character apostrophe token compared against by
`parseExpression` (`token === "'"`). -/
def quoteTok : String := String.mk [Char.ofNat 39]

/-! ## `parseFloat` and atoms -/

/-- Digit characters consumed by `parseFloat`. -/
def takeDigits (cs : List Char) : List Nat × List Char :=
  match cs with
  | c :: rest =>
    if c.isDigit then
      let (ds, r) := takeDigits rest
      ((c.toNat - 48) :: ds, r)
    else ([], cs)
  | [] => ([], [])

/-- Value of a digit list read left to right. -/
def digitsToNat (ds : List Nat) : Nat :=
  ds.foldl (fun acc d => acc * 10 + d) 0

/-- An optional leading sign; `true` means negative. -/
def takeSign (cs : List Char) : Bool × List Char :=
  match cs with
  | '+' :: rest => (false, rest)
  | '-' :: rest => (true, rest)
  | _ => (false, cs)

/-- JS `parseFloat`: parse the longest prefix of the string that is a
decimal literal (optional sign, digits, optional fraction, optional
exponent whose digits must be nonempty to count), ignoring everything
after it; `none` when no prefix parses (JS `NaN`).  The `Infinity`
production and double rounding are outside the exact-fraction model (no
input in scope exercises them). -/
def jsParseFloat (s : String) : Option JsNum :=
  let cs := (s.data).dropWhile isWs
  let (neg, r0) := takeSign cs
  let (intDs, r1) := takeDigits r0
  let (fracDs, r2) :=
    match r1 with
    | '.' :: r => takeDigits r
    | _ => ([], r1)
  if intDs.isEmpty && fracDs.isEmpty then none
  else
    let mant : JsNum :=
      jsAdd (numOfNat (digitsToNat intDs))
        (jsDiv (numOfNat (digitsToNat fracDs)) (pow10 fracDs.length))
    let scaled : JsNum :=
      match r2 with
      | c :: r3 =>
        if c = 'e' || c = 'E' then
          let (eneg, r4) := takeSign r3
          let (eDs, _) := takeDigits r4
          if eDs.isEmpty then mant
          else if eneg then jsDiv mant (pow10 (digitsToNat eDs))
          else jsMul mant (pow10 (digitsToNat eDs))
        else mant
      | [] => mant
    some (if neg then ⟨-scaled.n, scaled.d⟩ else scaled)

/-- Source `parseAtom`: `#t`/`#f` become booleans; a token with a parsable
float prefix becomes that number; anything else is a symbol. -/
def parseAtom (tok : String) : Value :=
  if tok = "#t" then .bool true
  else if tok = "#f" then .bool false
  else
    match jsParseFloat tok with
    | some q => .num q
    | none => .sym tok

/-! ## Parser -/

mutual
/-- Source `parseExpression`, in cursor-passing style: consume one expression
from the token list and return it with the remaining tokens.  The fuel
argument is an embedding artifact (`parse` supplies enough for any token
list). -/
def parseExpressionF : Nat → List String → Except Err (Value × List String)
  | 0, _ => .error .outOfFuel
  | fuel+1, toks =>
    match toks with
    | [] => .error .unexpectedEndOfInput
    | tok :: rest =>
      if tok = "(" then parseListF fuel rest
      else if tok = ")" then .error .unexpectedCloseParen
      else if tok = quoteTok then
        match parseExpressionF fuel rest with
        | .error e => .error e
        | .ok (v, rest') =>
          .ok (.cons (.sym "quote") (.cons v .empty), rest')
      else .ok (parseAtom tok, rest)

/-- The list loop of `parseExpression` (`while (tokens[position] !== ')')`)
fused with `arrayToLinkedList`: elements are consed right-nested onto
`empty`. -/
def parseListF : Nat → List String → Except Err (Value × List String)
  | 0, _ => .error .outOfFuel
  | fuel+1, toks =>
    match toks with
    | [] => .error .unmatchedParen
    | tok :: rest =>
      if tok = ")" then .ok (.empty, rest)
      else
        match parseExpressionF fuel (tok :: rest) with
        | .error e => .error e
        | .ok (v, rest') =>
          match parseListF fuel rest' with
          | .error e => .error e
          | .ok (lst, rest'') => .ok (.cons v lst, rest'')
end

/-- Source `parse`: tokenize, read one expression, and fail with the trailing
input error unless the cursor consumed every token.  The fuel
`2 * length + 2` dominates the recursion depth of `parseExpressionF`
(each nesting level consumes at least one token and at most two fuel
units). -/
def parse (input : String) : Except Err Value :=
  let toks := tokenize input
  match parseExpressionF (2 * toks.length + 2) toks with
  | .error e => .error e
  | .ok (v, rest) => if rest.isEmpty then .ok v else .error .trailingInput

/-! ## Printer -/

/-- JS `String(expr)` for the values `printExpr` does not special-case.
`String` of a JS function returns its source text, which the spec leaves
unspecified; a fixed placeholder is used. -/
def jsToString : Value → String
  | .num q => if q.d = 1 then toString q.n else "unmodelled-number"
  | .empty => "null"
  | .undefVal => "undefined"
  | .prim _ => "function"
  | .closure _ _ => "function"
  | .bool b => if b then "true" else "false"
  | .sym s => s
  | .cons _ _ => "[object Object]"

/-- Source `printExpr` fused with `linkedListToArray`: the first component
renders the value as an expression, the second renders it as the
continuation of a list body (a leading space per element, stopping at
the first non-`Cons` tail, exactly as `linkedListToArray` does). -/
def printExprAux : Value → String × String
  | .cons a d =>
    ("(" ++ (printExprAux a).1 ++ (printExprAux d).2 ++ ")",
     " " ++ (printExprAux a).1 ++ (printExprAux d).2)
  | .sym s => (s, "")
  | .bool b => (if b then "#t" else "#f", "")
  | v => (jsToString v, "")

/-- Helper to print Scheme expressions: lists become parenthesized
space-separated element renderings; symbols print as their text,
booleans as `#t`/`#f`, anything else via `String(...)`. -/
def printExpr (v : Value) : String :=
  match v with
  | .cons a d => "(" ++ (printExprAux a).1 ++ (printExprAux d).2 ++ ")"
  | .sym s => s
  | .bool b => if b then "#t" else "#f"
  | v => jsToString v

/-! ## Evaluator

The `Thunk` class stores a nullary JS closure; the three closures the
source ever wraps are represented by the three constructors below,
holding exactly the data each closure captures. -/

/-- A pending tail-call continuation (`Thunk` in the source). -/
inductive Thunk where
  /-- the `if` thunk: captures the raw `args` chain `(C T F)` and `env`;
  the condition is evaluated when the thunk is forced -/
  | ifT (args : Value) (env : Nat)
  /-- the `begin` tail thunk: `() => evaluateWithTailCall(e, env)` -/
  | tailT (e : Value) (env : Nat)
  /-- the application thunk: `() => proc(...evaluatedArgs)` -/
  | appT (f : Value) (args : List Value)
  deriving DecidableEq, Repr

/-- Result of the step function: a final value or a pending thunk
(`result instanceof Thunk` distinguishes them in the source). -/
inductive StepR where
  | val (v : Value)
  | thunk (t : Thunk)
  deriving DecidableEq, Repr

/-- The parameter-binding `forEach` loop of a closure application:
reads `paramList.car`, defines it, then advances to `paramList.cdr`,
once per actual argument.  The store is returned even on a JS
`TypeError` (bindings made before the crash persist).  A non-string
parameter name becomes a non-string `Map` key, unobservable by `lookup`
(which is only called with strings), hence modelled as a no-op. -/
def bindParams : Store → Nat → Value → List Value → Except Err Unit × Store
  | st, _, _, [] => (.ok (), st)
  | st, envIdx, paramList, a :: rest =>
    match jsCar paramList with
    | .error er => (.error er, st)
    | .ok key =>
      let st' := match key with
        | .sym s => defineVar st envIdx s a
        | _ => st
      match jsCdr paramList with
      | .error er => (.error er, st')
      | .ok pl' => bindParams st' envIdx pl' rest

/-!
The evaluator family.  Every function takes a fuel argument (each
recursive call consumes one unit; an embedding artifact) and returns, in
addition to the source's result and the mutated store, a ghost `Nat`:
the native call-stack depth the source execution uses, where the
`trampoline` loop is iterative and therefore takes the *maximum* over
its iterations rather than stacking them, while every other nested call
adds one frame.  Bounded-depth host steps (property reads, `Map`
operations, the parameter `forEach`) contribute only additive constants
and are not counted.
-/

mutual

/-- Source `evaluate(expr, env)`: run the step function, then resolve pending
continuations with the trampoline.  The third `match` arm converting a
trampoline result is unreachable for thunks (theorem `C3_theorem`). -/
def evaluate : Nat → Value → Nat → Store → Except Err Value × Store × Nat
  | 0, _, _, st => (.error .outOfFuel, st, 0)
  | fuel+1, e, env, st =>
    match evaluateWithTailCall fuel e env st with
    | (.error er, st', d) => (.error er, st', 1 + d)
    | (.ok r, st', d) =>
      match trampoline fuel r st' with
      | (.error er, st'', d') => (.error er, st'', 1 + max d d')
      | (.ok (.val v), st'', d') => (.ok v, st'', 1 + max d d')
      | (.ok (.thunk _), st'', d') => (.error .outOfFuel, st'', 1 + max d d')
termination_by structural fuel _ _ _ => fuel

/-- The `while (result instanceof Thunk)` loop: force the thunk and
continue with its result.  Iterative in the source: one frame for the
loop plus, per iteration, the forced closure's frames. -/
def trampoline : Nat → StepR → Store → Except Err StepR × Store × Nat
  | _, .val v, st => (.ok (.val v), st, 1)
  | 0, .thunk _, st => (.error .outOfFuel, st, 1)
  | fuel+1, .thunk t, st =>
    match forceThunk fuel t st with
    | (.error er, st', d) => (.error er, st', 1 + d)
    | (.ok r', st', d) =>
      match trampoline fuel r' st' with
      | (r'', st'', d') => (r'', st'', max (1 + d) d')
termination_by structural fuel _ _ => fuel

/-- Run `result.func()`: execute the closure a `Thunk` stores. -/
def forceThunk : Nat → Thunk → Store → Except Err StepR × Store × Nat
  | 0, _, st => (.error .outOfFuel, st, 0)
  | fuel+1, t, st =>
    match t with
    | .tailT e env =>
      match evaluateWithTailCall fuel e env st with
      | (r, st', d) => (r, st', 1 + d)
    | .ifT args env =>
      match jsCar args with
      | .error er => (.error er, st, 1)
      | .ok condE =>
        match evaluate fuel condE env st with
        | (.error er, st', d) => (.error er, st', 1 + d)
        | (.ok c, st', d) =>
          match (if jsTruthy c then
                   match jsCdr args with
                   | .error er => Except.error er
                   | .ok r1 => jsCar r1
                 else
                   match jsCdr args with
                   | .error er => Except.error er
                   | .ok r1 =>
                     match jsCdr r1 with
                     | .error er => Except.error er
                     | .ok r2 => jsCar r2) with
          | .error er => (.error er, st', 1 + d)
          | .ok branch =>
            match evaluateWithTailCall fuel branch env st' with
            | (r, st'', d') => (r, st'', 1 + max d d')
    | .appT f argv =>
      match f with
      | .prim p =>
        match applyPrim p argv with
        | .ok v => (.ok (.val v), st, 2)
        | .error er => (.error er, st, 2)
      | .closure cargs cenv =>
        let newIdx := st.frames.length
        let st1 : Store := ⟨st.frames ++ [⟨[], some cenv⟩]⟩
        match jsCar cargs with
        | .error er => (.error er, st1, 1)
        | .ok paramList =>
          match bindParams st1 newIdx paramList argv with
          | (.error er, st2) => (.error er, st2, 1)
          | (.ok _, st2) =>
            match jsCdr cargs with
            | .error er => (.error er, st2, 1)
            | .ok r1 =>
              match jsCar r1 with
              | .error er => (.error er, st2, 1)
              | .ok body =>
                match evaluateWithTailCall fuel body newIdx st2 with
                | (r, st3, d) => (r, st3, 1 + d)
      | _ => (.error .typeError, st, 1)
termination_by structural fuel _ _ => fuel

/-- Source `evaluateWithTailCall`: one step of the evaluator; tail positions
return thunks instead of recursing. -/
def evaluateWithTailCall : Nat → Value → Nat → Store → Except Err StepR × Store × Nat
  | 0, _, _, st => (.error .outOfFuel, st, 0)
  | fuel+1, e, env, st =>
    match e with
    | .sym s =>
      match lookup st env s with
      | (some v, dl) => (.ok (.val v), st, 1 + dl)
      | (none, dl) => (.error (.undefinedVariable s), st, 1 + dl)
    | .cons op args =>
      if op = .sym "quote" then
        match jsCar args with
        | .ok v => (.ok (.val v), st, 1)
        | .error er => (.error er, st, 1)
      else if op = .sym "if" then
        (.ok (.thunk (.ifT args env)), st, 1)
      else if op = .sym "lambda" then
        (.ok (.val (.closure args env)), st, 1)
      else if op = .sym "define" then
        match jsCar args with
        | .error er => (.error er, st, 1)
        | .ok key =>
          match jsCdr args with
          | .error er => (.error er, st, 1)
          | .ok rest1 =>
            match jsCar rest1 with
            | .error er => (.error er, st, 1)
            | .ok vexpr =>
              match evaluate fuel vexpr env st with
              | (.error er, st', d) => (.error er, st', 1 + d)
              | (.ok v, st', d) =>
                match key with
                | .sym s => (.ok (.val .undefVal), defineVar st' env s v, 1 + d)
                | _ => (.ok (.val .undefVal), st', 1 + d)
      else if op = .sym "begin" then
        match evalBegin fuel args .undefVal env st with
        | (r, st', d) => (r, st', 1 + d)
      else
        match evaluate fuel op env st with
        | (.error er, st', d) => (.error er, st', 1 + d)
        | (.ok procV, st', d) =>
          match evalArgs fuel args env st' with
          | (.error er, st'', d') => (.error er, st'', 1 + max d d')
          | (.ok argv, st'', d') =>
            match procV with
            | .prim p =>
              (.ok (.thunk (.appT (.prim p) argv)), st'', 1 + max d d')
            | .closure cargs cenv =>
              (.ok (.thunk (.appT (.closure cargs cenv) argv)), st'', 1 + max d d')
            | _ => (.error (.notAFunction op), st'', 1 + max d d')
    | _ => (.ok (.val e), st, 1)
termination_by structural fuel _ _ _ => fuel

/-- The `begin` loop of `evaluateWithTailCall`: `last` carries the JS
`result` variable (initially `undefined`).  The final `Cons` whose `cdr`
is exactly `null` is returned as a tail thunk; a non-`Cons` chain
position (including an improper tail) ends the loop with the last
result. -/
def evalBegin : Nat → Value → Value → Nat → Store → Except Err StepR × Store × Nat
  | 0, _, _, _, st => (.error .outOfFuel, st, 0)
  | fuel+1, exprs, last, env, st =>
    match exprs with
    | .cons e1 rest =>
      if rest = .empty then (.ok (.thunk (.tailT e1 env)), st, 0)
      else
        match evaluate fuel e1 env st with
        | (.error er, st', d) => (.error er, st', d)
        | (.ok v, st', d) =>
          match evalBegin fuel rest v env st' with
          | (r, st'', d') => (r, st'', max d d')
    | _ => (.ok (.val last), st, 0)
termination_by structural fuel _ _ _ _ => fuel

/-- The argument-evaluation loop of the application case
(`while (argList instanceof Cons) evaluatedArgs.push(...)`). -/
def evalArgs : Nat → Value → Nat → Store → Except Err (List Value) × Store × Nat
  | 0, _, _, st => (.error .outOfFuel, st, 0)
  | fuel+1, argList, env, st =>
    match argList with
    | .cons a rest =>
      match evaluate fuel a env st with
      | (.error er, st', d) => (.error er, st', d)
      | (.ok v, st', d) =>
        match evalArgs fuel rest env st' with
        | (.error er, st'', d') => (.error er, st'', max d d')
        | (.ok vs, st'', d') => (.ok (v :: vs), st'', max d d')
    | _ => (.ok [], st, 0)

termination_by structural fuel _ _ _ => fuel
end

/-! ## The global environment of `repl` -/

/-- The seven bindings `repl` installs into the fresh global
environment, in insertion order. -/
def globalVars : List (String × Value) :=
  [("+", .prim .add), ("-", .prim .sub), ("*", .prim .mul),
   ("/", .prim .div), ("=", .prim .eq), ("<", .prim .lt), (">", .prim .gt)]

/-- The store at the start of the read-eval-print loop: one frame, the
global environment (index 0), with the seven primitive bindings. -/
def initStore : Store := ⟨[⟨globalVars, none⟩]⟩

/-- Parse one input line and evaluate it in the seeded global
environment, as one iteration of `repl` does; returns the resulting
value or error.  The fuel is ample for every concrete program in the
claims. -/
def run (input : String) : Except Err Value :=
  match parse input with
  | .error e => .error e
  | .ok v => (evaluate 100 v 0 initStore).1

/-! ## Expression and store constants used by the claims -/

/-- The expression `(= n 0)`. -/
def eqExpr : Value := .cons (.sym "=") (.cons (.sym "n") (.cons (.num ⟨0, 1⟩) .empty))

/-- The expression `(- n 1)`. -/
def subExpr : Value := .cons (.sym "-") (.cons (.sym "n") (.cons (.num ⟨1, 1⟩) .empty))

/-- The expression `(loop (- n 1))`. -/
def recCall : Value := .cons (.sym "loop") (.cons subExpr .empty)

/-- The body `(if (= n 0) 0 (loop (- n 1)))`. -/
def ifBody : Value := .cons (.sym "if") (.cons eqExpr (.cons (.num ⟨0, 1⟩) (.cons recCall .empty)))

/-- The `args` chain of the lambda form: `((n) body)`. -/
def lambdaArgs : Value := .cons (.cons (.sym "n") .empty) (.cons ifBody .empty)

/-- The expression `(define loop (lambda (n) ...))`. -/
def defineLoop : Value :=
  .cons (.sym "define")
    (.cons (.sym "loop") (.cons (.cons (.sym "lambda") lambdaArgs) .empty))

/-- The global frame after `loop` has been defined. -/
def gFrame : Frame := ⟨globalVars ++ [("loop", .closure lambdaArgs 0)], none⟩

/-- The store after evaluating `defineLoop` in the seeded global
environment. -/
def stDef : Store := ⟨[gFrame]⟩

/-- A call `(loop n)` with a natural-number literal argument. -/
def loopCall (k : Nat) : Value := .cons (.sym "loop") (.cons (.num ⟨(k : Int), 1⟩) .empty)

theorem parse_defineLoop :
    parse "(define loop (lambda (n) (if (= n 0) 0 (loop (- n 1)))))" = .ok defineLoop := by
  decide

theorem eval_defineLoop :
    (evaluate 50 defineLoop 0 initStore).1 = .ok .undefVal
      ∧ (evaluate 50 defineLoop 0 initStore).2.1 = stDef := by
  decide

/-! ## Claim C3: the trampoline never hands a thunk back -/

/-- C3.  For every fuel, step result and store on which the trampoline
loop returns normally, the result it returns is a final `.val`, never a
`.thunk`: the `while (result instanceof Thunk)` loop only exits once
every pending tail-position continuation is resolved (within the
embedding, the only other exit is the artificial fuel error). -/
theorem C3_theorem (fuel : Nat) :
    ∀ (r : StepR) (st : Store) (res : StepR) (st' : Store) (d : Nat),
      trampoline fuel r st = (.ok res, st', d) → ∃ v, res = .val v := by
  induction fuel with
  | zero =>
    intro r st res st' d h
    cases r with
    | val v =>
      simp only [trampoline, Prod.mk.injEq, Except.ok.injEq] at h
      exact ⟨v, h.1.symm⟩
    | thunk t =>
      simp only [trampoline, Prod.mk.injEq] at h
      exact absurd h.1 (by simp)
  | succ n ih =>
    intro r st res st' d h
    cases r with
    | val v =>
      simp only [trampoline, Prod.mk.injEq, Except.ok.injEq] at h
      exact ⟨v, h.1.symm⟩
    | thunk t =>
      simp only [trampoline] at h
      rcases hf : forceThunk n t st with ⟨e, st1, d1⟩
      rw [hf] at h
      cases e with
      | error er => simp at h
      | ok r1 =>
        simp only at h
        rcases ht : trampoline n r1 st1 with ⟨e2, st2, d2⟩
        rw [ht] at h
        simp only [Prod.mk.injEq] at h
        obtain ⟨he, -, -⟩ := h
        subst he
        exact ih r1 st1 res st2 d2 ht

/-- Witness for C3 at a concrete input: forcing the application thunk of
`+` on `1` and `2` resolves to the final value `3`. -/
theorem C3_witness : ∃ v, StepR.val (Value.num ⟨3, 1⟩) = .val v :=
  C3_theorem 10 (.thunk (.appT (.prim .add) [.num ⟨1, 1⟩, .num ⟨2, 1⟩]))
    initStore (.val (.num ⟨3, 1⟩)) initStore 3 (by decide)

/-! ## Claim C1: `if` uses JS truthiness, not Scheme truthiness -/

/-- C1 counterexample.  The claim asserts `(if 0 1 2)` evaluates to
`Number(1)` (zero truthy).  The code evaluates it to `Number(2)`:
the thunk body `condition ? T : F` uses JS truthiness, under which the
number `0` is falsy. -/
theorem C1_counterexample :
    run "(if 0 1 2)" = .ok (.num ⟨2, 1⟩) ∧ toRat ⟨2, 1⟩ ≠ 1 := by
  refine ⟨by decide, ?_⟩
  norm_num [toRat]

/-- C1 as amended.  Evaluating `(if C T F)` evaluates `C` (when the
thunk is forced) and continues at `T` exactly when the value of `C` is
JS-truthy: every value except `Boolean(false)`, `Number(0)`, the empty
`Symbol`, `Empty` (JS `null`) and the undefined value selects `T`; in
particular `(if #f 1 2)`, `(if 0 1 2)` and `(if (quote ()) 1 2)` all
evaluate to `Number(2)`, while `(if 3 1 2)` evaluates to `Number(1)`. -/
theorem C1_theorem :
    run "(if #f 1 2)" = .ok (.num ⟨2, 1⟩)
    ∧ run "(if 0 1 2)" = .ok (.num ⟨2, 1⟩)
    ∧ run "(if (quote ()) 1 2)" = .ok (.num ⟨2, 1⟩)
    ∧ run "(if 3 1 2)" = .ok (.num ⟨1, 1⟩)
    ∧ (∀ v : Value, jsTruthy v = false ↔
        (v = .bool false ∨ (∃ q, v = .num q ∧ q.n = 0) ∨ v = .sym "" ∨ v = .empty ∨ v = .undefVal)) := by
  refine ⟨by decide, by decide, by decide, by decide, ?_⟩
  intro v
  cases v <;> simp [jsTruthy]

/-! ## Claim C4: a leading apostrophe fuses with a following atom -/

/-- C4 counterexample.  The claim asserts `'x` parses to
`(quote x)`; in fact the tokenizer only surrounds parentheses with
spaces, so `'x` is one token and parses to the symbol `'x`. -/
theorem C4_counterexample :
    parse (quoteTok ++ "x") = .ok (.sym (quoteTok ++ "x"))
    ∧ parse (quoteTok ++ "x") ≠ .ok (.cons (.sym "quote") (.cons (.sym "x") .empty)) := by
  constructor
  · decide
  · decide

/-- C4 as amended.  The apostrophe becomes its own token only when
separated by whitespace or by the space-padding around parentheses; in
that case the parser quote-wraps the following expression (so `'(1 2)`
parses to `(quote (1 2))`, and the general rule holds whenever the
apostrophe token stands alone).  An apostrophe directly attached to an
atom is part of that atom's token, which parses as a symbol containing
the apostrophe. -/
theorem C4_theorem :
    tokenize (quoteTok ++ "x") = [quoteTok ++ "x"]
    ∧ parse (quoteTok ++ "x") = .ok (.sym (quoteTok ++ "x"))
    ∧ tokenize (quoteTok ++ "(1 2)") = [quoteTok, "(", "1", "2", ")"]
    ∧ parse (quoteTok ++ "(1 2)") =
        .ok (.cons (.sym "quote")
          (.cons (.cons (.num ⟨1, 1⟩) (.cons (.num ⟨2, 1⟩) .empty)) .empty))
    ∧ (∀ (fuel : Nat) (toks : List String),
        parseExpressionF (fuel + 1) (quoteTok :: toks) =
          match parseExpressionF fuel toks with
          | .error e => .error e
          | .ok (v, rest) => .ok (.cons (.sym "quote") (.cons v .empty), rest)) := by
  refine ⟨by decide, by decide, by decide, by decide, ?_⟩
  intro fuel toks
  simp only [parseExpressionF]
  rw [if_neg (by decide), if_neg (by decide), if_pos trivial]

/-! ## Claim C6: trailing tokens after one expression are an error -/

/-- C6.  Whenever the token cursor has not consumed every token after
one top-level expression, `parse` fails with the trailing input error;
an input containing exactly one expression parses cleanly (shown for
`(define x 5) x` and `(define x 5)`). -/
theorem C6_theorem :
    (∀ (input : String) (v : Value) (rest : List String),
      parseExpressionF (2 * (tokenize input).length + 2) (tokenize input) = .ok (v, rest) →
      rest ≠ [] → parse input = .error .trailingInput)
    ∧ parse "(define x 5) x" = .error .trailingInput
    ∧ parse "(define x 5)" =
        .ok (.cons (.sym "define") (.cons (.sym "x") (.cons (.num ⟨5, 1⟩) .empty))) := by
  refine ⟨?_, by decide, by decide⟩
  intro input v rest h hne
  simp only [parse, h]
  simp [List.isEmpty_iff, hne]

/-- Witness for C6 at the concrete input `(define x 5) x`. -/
theorem C6_witness : parse "(define x 5) x" = .error .trailingInput :=
  C6_theorem.1 "(define x 5) x"
    (.cons (.sym "define") (.cons (.sym "x") (.cons (.num ⟨5, 1⟩) .empty)))
    ["x"] (by decide) (by decide)

/-! ## Claim C8: canonical parse/print round trips -/

/-- C8.  Printing the parse of the canonical inputs named by the spec
reproduces them exactly. -/
theorem C8_theorem :
    (parse "(+ 1 2)").map printExpr = .ok "(+ 1 2)"
    ∧ (parse "(lambda (x) x)").map printExpr = .ok "(lambda (x) x)" := by
  constructor
  · decide
  · decide

/-! ## Claim C9: errors propagate; completed defines persist -/

/-- The parse of `(begin (define x 1) (define y 2) zzz)`. -/
def beginProg : Value :=
  .cons (.sym "begin")
    (.cons (.cons (.sym "define") (.cons (.sym "x") (.cons (.num ⟨1, 1⟩) .empty)))
      (.cons (.cons (.sym "define") (.cons (.sym "y") (.cons (.num ⟨2, 1⟩) .empty)))
        (.cons (.sym "zzz") .empty)))

/-- The global store after the two defines of `beginProg`: both bindings
present, in execution order, after the seeded primitives. -/
def stAfterBegin : Store :=
  ⟨[⟨globalVars ++ [("x", .num ⟨1, 1⟩), ("y", .num ⟨2, 1⟩)], none⟩]⟩

/-- C9.  Evaluating a `begin` whose defines succeed and whose last
expression raises `UndefinedVariable` returns that error as a distinct
failure value together with the mutated store: both defines remain
bound, in execution order, and the environment keeps working (looking
up `x` afterwards yields `1`). -/
theorem C9_theorem :
    parse "(begin (define x 1) (define y 2) zzz)" = .ok beginProg
    ∧ (evaluate 100 beginProg 0 initStore).1 = .error (.undefinedVariable "zzz")
    ∧ (evaluate 100 beginProg 0 initStore).2.1 = stAfterBegin
    ∧ (lookup stAfterBegin 0 "x").1 = some (.num ⟨1, 1⟩)
    ∧ (lookup stAfterBegin 0 "y").1 = some (.num ⟨2, 1⟩)
    ∧ (evaluate 100 (.sym "x") 0 stAfterBegin).1 = .ok (.num ⟨1, 1⟩) := by
  refine ⟨by decide, by decide, by decide, by decide, by decide, by decide⟩

/-! ## Claim C10: atoms are classified by prefix float parsing -/

/-- C10.  A token other than `#t`/`#f` whose longest prefix parses as a
float becomes that number even when non-numeric characters follow
(`1abc` is `Number(1)`, `3.5x` is `Number(3.5)`); only tokens with no
parsable numeric prefix become symbols. -/
theorem C10_theorem :
    parseAtom "1abc" = .num ⟨1, 1⟩
    ∧ (parseAtom "3.5x" = .num ⟨35, 10⟩ ∧ toRat ⟨35, 10⟩ = 7 / 2)
    ∧ parseAtom "abc" = .sym "abc"
    ∧ (∀ (t : String) (q : JsNum), t ≠ "#t" → t ≠ "#f" →
        jsParseFloat t = some q → parseAtom t = .num q)
    ∧ (∀ t : String, t ≠ "#t" → t ≠ "#f" →
        jsParseFloat t = none → parseAtom t = .sym t) := by
  refine ⟨by decide, ⟨by decide, by norm_num [toRat]⟩, by decide, ?_, ?_⟩
  · intro t q ht hf hp
    simp [parseAtom, ht, hf, hp]
  · intro t ht hf hp
    simp [parseAtom, ht, hf, hp]

/-- Witness for C10's general clauses at fresh concrete tokens. -/
theorem C10_witness :
    parseAtom "2x" = .num ⟨2, 1⟩ ∧ parseAtom "x2" = .sym "x2" :=
  ⟨C10_theorem.2.2.2.1 "2x" ⟨2, 1⟩ (by decide) (by decide) (by decide),
   C10_theorem.2.2.2.2 "x2" (by decide) (by decide) (by decide)⟩

/-! ## Claim C5: the seeded global environment -/

/-- C5.  The global environment binds `+ - * / = < >`, each to a
primitive that uses exactly its first two arguments; on two numbers the
first four compute the exact rational arithmetic result and the last
three compute numeric comparisons producing booleans; and
`(+ 1 2)` evaluates to `Number(3)`. -/
theorem C5_theorem :
    ((lookup initStore 0 "+").1 = some (.prim .add)
      ∧ (lookup initStore 0 "-").1 = some (.prim .sub)
      ∧ (lookup initStore 0 "*").1 = some (.prim .mul)
      ∧ (lookup initStore 0 "/").1 = some (.prim .div)
      ∧ (lookup initStore 0 "=").1 = some (.prim .eq)
      ∧ (lookup initStore 0 "<").1 = some (.prim .lt)
      ∧ (lookup initStore 0 ">").1 = some (.prim .gt))
    ∧ (∀ (p : Prim) (a b : JsNum) (rest : List Value),
        applyPrim p (.num a :: .num b :: rest) = applyPrim p [.num a, .num b])
    ∧ (∀ a b : JsNum, a.d ≠ 0 → b.d ≠ 0 →
        toRat (jsAdd a b) = toRat a + toRat b
        ∧ toRat (jsSub a b) = toRat a - toRat b
        ∧ toRat (jsMul a b) = toRat a * toRat b
        ∧ (jsNumEq a b = true ↔ toRat a = toRat b)
        ∧ (jsNumLt a b = true ↔ toRat a < toRat b))
    ∧ run "(+ 1 2)" = .ok (.num ⟨3, 1⟩)
    ∧ toRat ⟨3, 1⟩ = 3 := by
  refine ⟨⟨by decide, by decide, by decide, by decide, by decide, by decide, by decide⟩,
    ?_, ?_, by decide, by norm_num [toRat]⟩
  · intro p a b rest
    rfl
  · intro a b ha hb
    have ha' : (a.d : ℚ) ≠ 0 := Nat.cast_ne_zero.2 ha
    have hb' : (b.d : ℚ) ≠ 0 := Nat.cast_ne_zero.2 hb
    have hap : (0 : ℚ) < a.d := by
      exact_mod_cast Nat.pos_of_ne_zero ha
    have hbp : (0 : ℚ) < b.d := by
      exact_mod_cast Nat.pos_of_ne_zero hb
    refine ⟨?_, ?_, ?_, ?_, ?_⟩
    · simp only [toRat, jsAdd]
      push_cast
      field_simp
      try ring
    · simp only [toRat, jsSub]
      push_cast
      field_simp
      try ring
    · simp only [toRat, jsMul]
      push_cast
      field_simp
      try ring
    · have h1 : jsNumEq a b = true ↔ a.n * b.d = b.n * a.d := by
        simp [jsNumEq]
      rw [h1, toRat, toRat, div_eq_div_iff ha' hb']
      constructor
      · intro h
        exact_mod_cast h
      · intro h
        exact_mod_cast h
    · have h1 : jsNumLt a b = true ↔ a.n * b.d < b.n * a.d := by
        simp [jsNumLt]
      rw [h1, toRat, toRat, div_lt_div_iff hap hbp]
      constructor
      · intro h
        exact_mod_cast h
      · intro h
        exact_mod_cast h

/-- Witness for C5's quantified clauses at concrete numbers. -/
theorem C5_witness :
    toRat (jsAdd ⟨1, 1⟩ ⟨2, 1⟩) = toRat ⟨1, 1⟩ + toRat ⟨2, 1⟩
    ∧ (jsNumLt ⟨1, 1⟩ ⟨2, 1⟩ = true ↔ toRat ⟨1, 1⟩ < toRat ⟨2, 1⟩) :=
  ⟨(C5_theorem.2.2.1 ⟨1, 1⟩ ⟨2, 1⟩ (by decide) (by decide)).1,
   (C5_theorem.2.2.1 ⟨1, 1⟩ ⟨2, 1⟩ (by decide) (by decide)).2.2.2.2⟩

/-! ## Claim C7: `define` mutates only its own frame -/

/-- Well-formedness of a store: every frame's parent index is smaller
than its own index.  Every store the interpreter builds satisfies this,
because `new Environment(parent)` appends the new frame after its
parent. -/
def wfStore (st : Store) : Prop :=
  ∀ i fr, getFrame st i = some fr → ∀ p, fr.parent = some p → p < i

theorem modifyFrame_get_ne :
    ∀ (l : List Frame) (i j : Nat) (g : Frame → Frame), j ≠ i →
      (modifyFrame l i g).get? j = l.get? j := by
  intro l
  induction l with
  | nil =>
    intro i j g _
    cases i <;> simp [modifyFrame]
  | cons f rest ih =>
    intro i j g h
    cases i with
    | zero =>
      cases j with
      | zero => exact absurd rfl h
      | succ j => simp [modifyFrame]
    | succ i =>
      cases j with
      | zero => simp [modifyFrame]
      | succ j =>
        simpa [modifyFrame] using ih i j g (by omega)

theorem modifyFrame_get_eq :
    ∀ (l : List Frame) (i : Nat) (g : Frame → Frame),
      (modifyFrame l i g).get? i = (l.get? i).map g := by
  intro l
  induction l with
  | nil =>
    intro i g
    cases i <;> simp [modifyFrame]
  | cons f rest ih =>
    intro i g
    cases i with
    | zero => simp [modifyFrame]
    | succ i => simpa [modifyFrame] using ih i g

theorem frameGet_frameSet_self :
    ∀ (vs : List (String × Value)) (s : String) (v : Value),
      frameGet (frameSet vs s v) s = some v := by
  intro vs s v
  induction vs with
  | nil => simp [frameSet, frameGet]
  | cons kv rest ih =>
    obtain ⟨k, w⟩ := kv
    by_cases h : k = s
    · subst h
      simp [frameSet, frameGet]
    · simp [frameSet, frameGet, h, ih]

theorem lookupF_defineVar_high :
    ∀ (fuel : Nat) (st : Store) (i : Nat) (s : String) (v : Value) (a : Nat) (s' : String),
      wfStore st → a < i →
      lookupF fuel (defineVar st i s v) a s' = lookupF fuel st a s' := by
  intro fuel
  induction fuel with
  | zero =>
    intro st i s v a s' _ _
    simp [lookupF]
  | succ n ih =>
    intro st i s v a s' hwf hai
    have hge : getFrame (defineVar st i s v) a = getFrame st a := by
      show (modifyFrame st.frames i _).get? a = st.frames.get? a
      exact modifyFrame_get_ne _ _ _ _ (by omega)
    cases hg : getFrame st a with
    | none => simp only [lookupF, hge, hg]
    | some fr =>
      cases hf : frameGet fr.vars s' with
      | some w => simp only [lookupF, hge, hg, hf]
      | none =>
        cases hp : fr.parent with
        | none => simp only [lookupF, hge, hg, hf, hp]
        | some p =>
          have hpa : p < a := hwf a fr hg p hp
          simp only [lookupF, hge, hg, hf, hp]
          rw [ih st i s v p s' hwf (by omega)]

theorem lookup_frame_hit (st : Store) (a : Nat) (s : String) (fra : Frame) (w : Value)
    (hg : getFrame st a = some fra) (hf : frameGet fra.vars s = some w) :
    (lookup st a s).1 = some w := by
  simp [lookup, lookupF, hg, hf]

/-- C7.  `define(s, v)` on the frame at index `i` leaves every other
frame untouched; a lookup of `s` starting at `i` afterwards finds the
new value (shadowing any ancestor binding); a lookup of any symbol
starting at any ancestor `a < i` is completely unchanged, and in
particular still finds the ancestor's own binding of `s` when it has
one. -/
theorem C7_theorem (st : Store) (i : Nat) (fr : Frame) (s : String) (v : Value)
    (hwf : wfStore st) (hfr : getFrame st i = some fr) :
    (∀ j, j ≠ i → getFrame (defineVar st i s v) j = getFrame st j)
    ∧ (lookup (defineVar st i s v) i s).1 = some v
    ∧ (∀ a, a < i → ∀ s', (lookup (defineVar st i s v) a s').1 = (lookup st a s').1)
    ∧ (∀ a fra w, a < i → getFrame st a = some fra → frameGet fra.vars s = some w →
        (lookup (defineVar st i s v) a s).1 = some w) := by
  refine ⟨?_, ?_, ?_, ?_⟩
  · intro j hj
    show (modifyFrame st.frames i _).get? j = st.frames.get? j
    exact modifyFrame_get_ne _ _ _ _ hj
  · have hget : getFrame (defineVar st i s v) i =
        some { fr with vars := frameSet fr.vars s v } := by
      show (modifyFrame st.frames i _).get? i = _
      rw [modifyFrame_get_eq]
      have hfr' : st.frames.get? i = some fr := hfr
      rw [hfr']
      rfl
    simp [lookup, lookupF, hget, frameGet_frameSet_self]
  · intro a ha s'
    simp only [lookup]
    rw [lookupF_defineVar_high (a + 1) st i s v a s' hwf ha]
  · intro a fra w ha hga hfa
    have h1 : (lookup (defineVar st i s v) a s).1 = (lookup st a s).1 := by
      simp only [lookup]
      rw [lookupF_defineVar_high (a + 1) st i s v a s hwf ha]
    rw [h1]
    exact lookup_frame_hit st a s fra w hga hfa

/-- A two-frame store: a global frame binding `x` and a child frame. -/
def wStore : Store := ⟨[⟨[("x", .num ⟨1, 1⟩)], none⟩, ⟨[], some 0⟩]⟩

theorem wStore_wf : wfStore wStore := by
  intro i fr h p hp
  cases i with
  | zero =>
    simp [wStore, getFrame] at h
    rw [← h] at hp
    simp at hp
  | succ i =>
    cases i with
    | zero =>
      simp [wStore, getFrame] at h
      rw [← h] at hp
      simp at hp
      omega
    | succ i =>
      simp [wStore, getFrame] at h

/-- Witness for C7: defining `x` in the child frame of `wStore` shadows
the global binding without touching it. -/
theorem C7_witness :
    getFrame (defineVar wStore 1 "x" (.num ⟨2, 1⟩)) 0 = getFrame wStore 0
    ∧ (lookup (defineVar wStore 1 "x" (.num ⟨2, 1⟩)) 1 "x").1 = some (.num ⟨2, 1⟩)
    ∧ (lookup (defineVar wStore 1 "x" (.num ⟨2, 1⟩)) 0 "x").1 = (lookup wStore 0 "x").1
    ∧ (lookup (defineVar wStore 1 "x" (.num ⟨2, 1⟩)) 0 "x").1 = some (.num ⟨1, 1⟩) := by
  obtain ⟨h1, h2, h3, h4⟩ :=
    C7_theorem wStore 1 ⟨[], some 0⟩ "x" (.num ⟨2, 1⟩) wStore_wf (by decide)
  exact ⟨h1 0 (by decide), h2, h3 0 (by decide) "x",
    h4 0 ⟨[("x", .num ⟨1, 1⟩)], none⟩ (.num ⟨1, 1⟩) (by decide) (by decide) (by decide)⟩

/-! ## Claim C2: tail calls run in constant native stack depth -/

/-- The closure value `loop` is bound to. -/
def closV : Value := .closure lambdaArgs 0

/-- The `args` chain captured by the `if` thunk of the loop body. -/
def ifArgs : Value := .cons eqExpr (.cons (.num ⟨0, 1⟩) (.cons recCall .empty))

/-- The store after one closure application of `loop` on top of `st`:
one new frame binding `n`, parented to the global frame. -/
def pushN (st : Store) (q : JsNum) : Store :=
  ⟨st.frames ++ [⟨[("n", .num q)], some 0⟩]⟩

theorem modifyFrame_concat (l : List Frame) (fr : Frame) (g : Frame → Frame) :
    modifyFrame (l ++ [fr]) l.length g = l ++ [g fr] := by
  induction l with
  | nil => simp [modifyFrame]
  | cons a t ih => simp [modifyFrame, ih]

theorem getFrame_pushN_top (st : Store) (q : JsNum) :
    getFrame (pushN st q) st.frames.length = some ⟨[("n", .num q)], some 0⟩ := by
  simp [getFrame, pushN, List.get?_concat_length]

theorem frames_len_pos (st : Store) (h : getFrame st 0 = some gFrame) :
    ∃ l, st.frames.length = l + 1 := by
  cases hf : st.frames with
  | nil =>
    rw [getFrame] at h
    rw [hf] at h
    simp at h
  | cons a t => exact ⟨t.length, by simp [hf]⟩

theorem getFrame_pushN_zero (st : Store) (q : JsNum) (h : getFrame st 0 = some gFrame) :
    getFrame (pushN st q) 0 = some gFrame := by
  obtain ⟨l, hl⟩ := frames_len_pos st h
  have hlen : 0 < st.frames.length := by omega
  simp only [getFrame, pushN]
  rw [List.get?_append hlen]
  exact h

theorem lookup_pushN_n (st : Store) (q : JsNum) :
    lookup (pushN st q) st.frames.length "n" = (some (.num q), 1) := by
  simp [lookup, lookupF, getFrame_pushN_top, frameGet]

theorem lookup_pushN_eq (st : Store) (q : JsNum) (h : getFrame st 0 = some gFrame) :
    lookup (pushN st q) st.frames.length "=" = (some (.prim .eq), 2) := by
  obtain ⟨l, hl⟩ := frames_len_pos st h
  have htop := getFrame_pushN_top st q
  have hzero := getFrame_pushN_zero st q h
  rw [hl] at htop
  simp only [lookup, hl]
  simp [lookupF, htop, hzero, frameGet, gFrame, globalVars]

theorem lookup_pushN_sub (st : Store) (q : JsNum) (h : getFrame st 0 = some gFrame) :
    lookup (pushN st q) st.frames.length "-" = (some (.prim .sub), 2) := by
  obtain ⟨l, hl⟩ := frames_len_pos st h
  have htop := getFrame_pushN_top st q
  have hzero := getFrame_pushN_zero st q h
  rw [hl] at htop
  simp only [lookup, hl]
  simp [lookupF, htop, hzero, frameGet, gFrame, globalVars]

theorem lookup_pushN_loop (st : Store) (q : JsNum) (h : getFrame st 0 = some gFrame) :
    lookup (pushN st q) st.frames.length "loop" = (some closV, 2) := by
  obtain ⟨l, hl⟩ := frames_len_pos st h
  have htop := getFrame_pushN_top st q
  have hzero := getFrame_pushN_zero st q h
  rw [hl] at htop
  simp only [lookup, hl]
  simp [lookupF, htop, hzero, frameGet, gFrame, globalVars, closV]

theorem jsNumEq_succ_zero (k : Nat) :
    jsNumEq ⟨(k : Int) + 1, 1⟩ ⟨0, 1⟩ = false := by
  simp [jsNumEq]
  omega

theorem jsNumEq_zero_zero : jsNumEq ⟨0, 1⟩ ⟨0, 1⟩ = true := by decide

theorem subStep (k : Nat) :
    jsSub ⟨(k : Int) + 1, 1⟩ ⟨1, 1⟩ = ⟨(k : Int), 1⟩ := by
  simp [jsSub, JsNum.mk.injEq]
  try omega

/-- Forcing the application thunk of the `loop` closure: one new frame
is pushed, `n` is bound, and the body immediately yields the `if`
thunk; two frames of native depth, no trampoline iterations. -/
theorem forceApp (m : Nat) (st : Store) (q : JsNum) :
    forceThunk (m + 2) (.appT closV [.num q]) st =
      (.ok (.thunk (.ifT ifArgs st.frames.length)), pushN st q, 2) := by
  simp [forceThunk, closV, lambdaArgs, jsCar, jsCdr, bindParams, defineVar,
    modifyFrame_concat, pushN, frameSet, evaluateWithTailCall, ifBody, ifArgs]

theorem evalSymLoopL (m : Nat) (st : Store) (q : JsNum) (h : getFrame st 0 = some gFrame) :
    evaluate (m + 2) (.sym "loop") st.frames.length (pushN st q) =
      (.ok closV, pushN st q, 4) := by
  simp [evaluate, evaluateWithTailCall, trampoline, lookup_pushN_loop st q h]

/-- Evaluating the condition `(= n 0)` in the loop frame: a bounded
inner trampoline applies the `=` primitive. -/
theorem evalCond (m : Nat) (st : Store) (q : JsNum) (h : getFrame st 0 = some gFrame) :
    evaluate (m + 7) eqExpr st.frames.length (pushN st q) =
      (.ok (.bool (jsNumEq q ⟨0, 1⟩)), pushN st q, 6) := by
  simp [evaluate, evaluateWithTailCall, trampoline, forceThunk, evalArgs, eqExpr,
    lookup_pushN_eq st q h, lookup_pushN_n st q, applyPrim]

/-- Evaluating `(- n 1)` in the loop frame. -/
theorem evalSubCall (m : Nat) (st : Store) (q : JsNum) (h : getFrame st 0 = some gFrame) :
    evaluate (m + 7) subExpr st.frames.length (pushN st q) =
      (.ok (.num (jsSub q ⟨1, 1⟩)), pushN st q, 6) := by
  simp [evaluate, evaluateWithTailCall, trampoline, forceThunk, evalArgs, subExpr,
    lookup_pushN_sub st q h, lookup_pushN_n st q, applyPrim]

/-- Stepping `(loop (- n 1))` in the loop frame yields the application
thunk for the decremented argument. -/
theorem ewtcRecCall (m : Nat) (st : Store) (q : JsNum) (h : getFrame st 0 = some gFrame) :
    evaluateWithTailCall (m + 9) recCall st.frames.length (pushN st q) =
      (.ok (.thunk (.appT closV [.num (jsSub q ⟨1, 1⟩)])), pushN st q, 7) := by
  simp [evaluateWithTailCall, evalArgs, recCall,
    evalSymLoopL (m + 6) st q h, evalSubCall m st q h, closV]

/-- Forcing the `if` thunk when `n` is `0`: the condition `(= n 0)`
evaluates to `true` and the then-branch `0` is the final value. -/
theorem forceIfZero (m : Nat) (st : Store) (h : getFrame st 0 = some gFrame) :
    forceThunk (m + 8) (.ifT ifArgs st.frames.length) (pushN st ⟨0, 1⟩) =
      (.ok (.val (.num ⟨0, 1⟩)), pushN st ⟨0, 1⟩, 7) := by
  simp [forceThunk, ifArgs, jsCar, jsCdr, jsTruthy,
    evalCond m st ⟨0, 1⟩ h, jsNumEq_zero_zero,
    evaluateWithTailCall]

/-- Forcing the `if` thunk when `n` is `k + 1`: the condition evaluates
to `false` and the else branch yields the application thunk for `k` —
the next outer trampoline iteration, at constant native depth. -/
theorem forceIfSucc (m k : Nat) (st : Store) (h : getFrame st 0 = some gFrame) :
    forceThunk (m + 10) (.ifT ifArgs st.frames.length)
        (pushN st ⟨(k : Int) + 1, 1⟩) =
      (.ok (.thunk (.appT closV [.num ⟨(k : Int), 1⟩])),
        pushN st ⟨(k : Int) + 1, 1⟩, 8) := by
  simp [forceThunk, ifArgs, jsCar, jsCdr, jsTruthy,
    evalCond (m + 2) st ⟨(k : Int) + 1, 1⟩ h, jsNumEq_succ_zero,
    ewtcRecCall m st ⟨(k : Int) + 1, 1⟩ h, subStep]

/-- One unfolding of the trampoline loop on a pending thunk. -/
theorem trampUnfold (fuel : Nat) (t : Thunk) (st : Store) :
    trampoline (fuel + 1) (.thunk t) st =
      match forceThunk fuel t st with
      | (.error er, st', d) => (.error er, st', 1 + d)
      | (.ok r', st', d) =>
        match trampoline fuel r' st' with
        | (r'', st'', d') => (r'', st'', max (1 + d) d') := rfl

/-- The loop invariant: from any store whose global frame is `gFrame`,
the outer trampoline resolves the application thunk `(loop k)` to
`Number(0)` within `2k + 12` fuel and within *constant* native stack
depth 9, independent of `k`.  Each iteration pushes one fresh frame and
hands the next application thunk back to the same loop. -/
theorem loopIter :
    ∀ (k : Nat) (st : Store), getFrame st 0 = some gFrame →
      ∃ (st' : Store) (d : Nat),
        trampoline (2 * k + 12) (.thunk (.appT closV [.num ⟨(k : Int), 1⟩])) st
          = (.ok (.val (.num ⟨0, 1⟩)), st', d)
        ∧ getFrame st' 0 = some gFrame ∧ d ≤ 9 := by
  intro k
  induction k with
  | zero =>
    intro st h
    refine ⟨pushN st ⟨0, 1⟩, 8, ?_, getFrame_pushN_zero st ⟨0, 1⟩ h, by omega⟩
    simp [trampoline, Nat.cast_zero, forceApp 9 st ⟨0, 1⟩, forceIfZero 2 st h]
  | succ k ih =>
    intro st h
    have hq : ((k + 1 : Nat) : Int) = (k : Int) + 1 := by push_cast; ring
    obtain ⟨st', d, hEq, hInv, hd⟩ :=
      ih (pushN st ⟨(k : Int) + 1, 1⟩) (getFrame_pushN_zero st ⟨(k : Int) + 1, 1⟩ h)
    refine ⟨st', max (1 + 2) (max (1 + 8) d), ?_, hInv, by omega⟩
    rw [hq, show (2 * (k + 1) + 12 : Nat) = (2 * k + 13) + 1 from by ring, trampUnfold,
      forceApp (2 * k + 11) st ⟨(k : Int) + 1, 1⟩]
    dsimp only
    rw [show ((2 * k + 13) : Nat) = (2 * k + 12) + 1 from by ring, trampUnfold,
      forceIfSucc (2 * k + 2) k st h]
    dsimp only
    rw [show ((2 * k + 2) + 10 : Nat) = 2 * k + 12 from by ring, hEq]

/-- Stepping the call `(loop n)` in the post-define global store:
`loop` and the literal argument are evaluated (non-tail) and the
application thunk is handed to the trampoline. -/
theorem ewtcLoopCall (m n : Nat) :
    evaluateWithTailCall (m + 4) (loopCall n) 0 stDef =
      (.ok (.thunk (.appT closV [.num ⟨(n : Int), 1⟩])), stDef, 4) := by
  simp [evaluateWithTailCall, evaluate, trampoline, evalArgs, loopCall,
    lookup, lookupF, stDef, gFrame, globalVars, getFrame, frameGet, closV]

/-- C2.  After `(define loop (lambda (n) (if (= n 0) 0 (loop (- n 1)))))`
in the seeded global environment (`stDef`, see `eval_defineLoop`),
evaluating `(loop n)` returns `Number(0)` for every `n` — in particular
`n = 1000000` — and the ghost native-stack-depth measure of the whole
evaluation is at most 12, a constant independent of `n`: the trampoline
unwraps every tail call iteratively instead of recursing. -/
theorem C2_theorem (n : Nat) :
    ∃ (fuel : Nat) (st' : Store) (d : Nat),
      evaluate fuel (loopCall n) 0 stDef = (.ok (.num ⟨0, 1⟩), st', d) ∧ d ≤ 12 := by
  obtain ⟨st', d, hEq, hInv, hd⟩ := loopIter n stDef (by decide)
  refine ⟨2 * n + 13, st', 1 + max 4 d, ?_, by omega⟩
  rw [show (2 * n + 13 : Nat) = (2 * n + 12) + 1 from by ring]
  simp only [evaluate]
  rw [show (2 * n + 12 : Nat) = (2 * n + 8) + 4 from by ring, ewtcLoopCall (2 * n + 8) n]
  dsimp only
  rw [show ((2 * n + 8) + 4 : Nat) = 2 * n + 12 from by ring, hEq]

end Scheme
